import Mathlib

/-!
Verification development for the `ceramic-dictionary-parser` repository
(`src/lib/ceramic-dictionary-parser.js`).

The JavaScript module exports a `DictParser` whose `map` generator walks an
entity schema, pulls flat delimiter-joined keys from a dictionary, converts
scalar values and assembles arrays and nested objects on a target.

The embedding below is a shallow, executable translation of that file:

* JavaScript values are the inductive `Value`; property keys are `JsKey`
  (the code indexes objects both with string field names and with the
  numeric array counter, and compares them to whitelist segments with
  strict equality `===`, which distinguishes strings from numbers).
* The generator-based control flow is sequential, so each generator becomes
  a function returning `Except JsErr _`; thrown `Error`s and `TypeError`s
  become the `.jsError` / `.typeError` constructors.
* Mutation of the target is modelled by threading the updated value through;
  the `while(true)` loop of `setArray` is given a `fuel : Nat` argument
  (exhaustion is the distinct outcome `.outOfFuel`, standing for divergence
  of the source loop, which has no fuel bound).
* The external `sanitizer` npm package is an opaque collaborator; its
  `escape` is modelled by `escapeHtml` (entity-escaping of the HTML
  metacharacters), and `sanitize`/`unescapeEntities` — which only the
  `htmlFields` branch uses and no claim exercises — are modelled at the
  interface boundary.
-/

/-- JavaScript property keys as the source uses them: string field names from
the schema, and the numeric 1-based counter that `setArray` feeds back into
`setField` as a field name. -/
inductive JsKey where
  | str (s : String)
  | num (n : Nat)
deriving DecidableEq, Repr

/-- Property-key coercion to a string, as JS does when a number is used as an
object key or joined into a path (`parents.concat(fieldName).join(...)`). -/
def JsKey.toStr : JsKey → String
  | .str s => s
  | .num n => toString n

/-- JavaScript runtime values that flow through the parser: `undefined`, `NaN`
(the result of a failed numeric parse), booleans, integers (from `parseInt`),
floats (from `parseFloat`, modelled as rationals), strings, arrays and plain
objects (ordered association lists, as JS preserves string-key insertion
order). -/
inductive Value where
  | undefined
  | nan
  | bool (b : Bool)
  | int (n : Int)
  | num (q : Rat)
  | str (s : String)
  | arr (elems : List Value)
  | obj (fields : List (String × Value))

/-- JavaScript truthiness, used by the source's `if (value)`, `if (val)`,
`obj[fieldName] || ...` and `options || ...` tests. -/
def truthy : Value → Bool
  | .undefined => false
  | .nan => false
  | .bool b => b
  | .int n => n != 0
  | .num q => q != 0
  | .str s => s != ""
  | .arr _ => true
  | .obj _ => true

/-- Failures of a mapping pass: `TypeError`s raised by the runtime (strict
mode), `Error`s thrown by the source, and `outOfFuel`, the modelling artifact
standing for divergence of the unbounded `while(true)` loop. -/
inductive JsErr where
  | typeError (msg : String)
  | jsError (msg : String)
  | outOfFuel
deriving DecidableEq, Repr

mutual
/-- A schema property definition: `{ type, items?, entitySchema? }`. -/
inductive FieldDef where
  | mk (type : String) (items : Option FieldDef) (entitySchema : Option EntitySchema)

/-- An entity schema: `{ schema: { properties }, ctor?, mapping?, htmlFields? }`.
`schema.properties` is flattened into the ordered `properties` list (JS
preserves string-key insertion order, and `for in` iterates it). The optional
constructor capability is modelled by `hasCtor`; `new ctor()` produces a fresh
empty keyed object. `mapping` and `htmlFields` are the field-name sets the
source tests with truthiness / `indexOf`; an absent JS property is the empty
list. -/
inductive EntitySchema where
  | mk (properties : List (String × FieldDef)) (hasCtor : Bool)
      (mapping : List String) (htmlFields : List String)
end

def FieldDef.type : FieldDef → String
  | .mk t _ _ => t

def FieldDef.items : FieldDef → Option FieldDef
  | .mk _ i _ => i

def FieldDef.entitySchema : FieldDef → Option EntitySchema
  | .mk _ _ e => e

def EntitySchema.properties : EntitySchema → List (String × FieldDef)
  | .mk ps _ _ _ => ps

def EntitySchema.hasCtor : EntitySchema → Bool
  | .mk _ c _ _ => c

def EntitySchema.mapping : EntitySchema → List String
  | .mk _ _ m _ => m

def EntitySchema.htmlFields : EntitySchema → List String
  | .mk _ _ _ h => h

/-- `isPrimitiveType` from the source:
`['string','number','integer','boolean','array'].indexOf(type) > -1`. -/
def isPrimitiveType (t : String) : Bool :=
  t == "string" || t == "number" || t == "integer" || t == "boolean" || t == "array"

/-- `isCustomType` from the source: the negation of `isPrimitiveType`. -/
def isCustomType (t : String) : Bool :=
  !isPrimitiveType t

/-- Association-list read, as `obj[key]` on a plain object (`none` for an
absent property, which JS reads as `undefined`). -/
def objGet : List (String × Value) → String → Option Value
  | [], _ => none
  | (k2, v) :: rest, k => if k2 = k then some v else objGet rest k

/-- Association-list write, as `obj[key] = v` on a plain object: an existing
key is updated in place (JS keeps the original insertion position), a new key
is appended. -/
def objSet : List (String × Value) → String → Value → List (String × Value)
  | [], k, v => [(k, v)]
  | (k2, v2) :: rest, k, v =>
    if k2 = k then (k2, v) :: rest else (k2, v2) :: objSet rest k v

/-- Array element write at an index, as `arr[n] = v`: in-range indices are
replaced, and writing past the end pads with holes (read back as `undefined`),
exactly as JS sparse assignment does. -/
def arrSet (xs : List Value) (n : Nat) (v : Value) : List Value :=
  if n < xs.length then xs.set n v
  else xs ++ List.replicate (n - xs.length) .undefined ++ [v]

/-- Property read `v[k]`. Plain objects coerce the key to a string; arrays
read numeric keys as elements. A non-numeric key on an array and any key on a
primitive read as `undefined` here (the source never stores non-element
properties on its arrays, and never reads properties of `null`/`undefined` on
the paths it takes). -/
def getProp (v : Value) (k : JsKey) : Value :=
  match v, k with
  | .obj fs, k => (objGet fs k.toStr).getD .undefined
  | .arr xs, .num n => xs.getD n .undefined
  | .arr _, .str _ => .undefined
  | _, _ => .undefined

/-- Property write `v[k] = x`. Keyed objects update/append; arrays assign by
numeric index (padding holes). Writing a property on a primitive value throws
a `TypeError` in strict mode (the file begins with `"use strict"`). A string
key on an array would attach a non-element property, which this model does not
represent and the source never does, so it is also mapped to an error. -/
def setProp (v : Value) (k : JsKey) (x : Value) : Except JsErr Value :=
  match v, k with
  | .obj fs, k => .ok (.obj (objSet fs k.toStr x))
  | .arr xs, .num n => .ok (.arr (arrSet xs n x))
  | .arr _, .str _ => .error (.typeError "non-element property write on an array")
  | _, _ => .error (.typeError "Cannot assign property of a primitive value")

/-- Strict equality `segment === fieldName` between a whitelist path segment
(always a string, produced by `String.prototype.split`) and the current field
name, which is a string from the schema or the numeric counter from
`setArray`; `"1" === 1` is `false` in JS. -/
def strictEqKey (seg : String) (k : JsKey) : Bool :=
  match k with
  | .str s => seg == s
  | .num _ => false

/-- A whitelist as `map_impl` receives it: each entry already split into path
segments. -/
abbrev Whitelist := List (List String)

/-- The guard `whitelist[0] && whitelist[0][0] === fieldName` of `setField`:
an empty whitelist (or an entry with no segments) fails the guard. -/
def wlHeadMatches (wl : Whitelist) (k : JsKey) : Bool :=
  match wl with
  | [] => false
  | e :: _ =>
    match e with
    | [] => false
    | s :: _ => strictEqKey s k

/-- Strict equality `entry === fieldName` between a whitelist entry and the
bare field name, as `whitelist.indexOf(fieldName)` of the CSV branch of
`setArray` tests it. After `map` splits the whitelist, every entry is an
array of segments, and `===` between an array and a string (or number) is
always `false` in JS — so this comparison never succeeds. -/
def entryStrictEqKey (_ : List String) (_ : JsKey) : Bool :=
  false

/-- `whitelist.indexOf(fieldName) !== -1` of the CSV branch of `setArray`. -/
def wlContainsLiteral (wl : Whitelist) (k : JsKey) : Bool :=
  wl.any (fun e => entryStrictEqKey e k)

/-- Leading decimal digits of a character list. -/
def leadingDigits (cs : List Char) : List Char :=
  cs.takeWhile (fun c => c.isDigit)

/-- Numeric value of a list of decimal digits. -/
def digitsToNat (cs : List Char) : Nat :=
  cs.foldl (fun acc c => acc * 10 + (c.toNat - 48)) 0

/-- `parseInt(val)` (base 10): skip leading whitespace, read an optional sign
and then the longest prefix of decimal digits, ignoring any trailing junk
(`parseInt("1,54,66") = 1`); no digits gives `NaN`. Hexadecimal prefixes are
not modelled (no claim feeds one). -/
def parseIntJs (s : String) : Value :=
  let cs := s.toList.dropWhile (fun c => c.isWhitespace)
  let (sign, cs2) : Int × List Char :=
    match cs with
    | '-' :: rest => (-1, rest)
    | '+' :: rest => (1, rest)
    | _ => (1, cs)
  let ds := leadingDigits cs2
  if ds.isEmpty then .nan
  else .int (sign * (digitsToNat ds : Int))

/-- `parseFloat(val)`: optional sign, integer digits, optional fractional
digits, modelled as an exact rational; exponent notation is not modelled (no
claim feeds one); no digits gives `NaN`. -/
def parseFloatJs (s : String) : Value :=
  let cs := s.toList.dropWhile (fun c => c.isWhitespace)
  let (sign, cs2) : Rat × List Char :=
    match cs with
    | '-' :: rest => (-1, rest)
    | '+' :: rest => (1, rest)
    | _ => (1, cs)
  let ds := leadingDigits cs2
  let frac := (cs2.drop ds.length)
  let fds :=
    match frac with
    | '.' :: rest => leadingDigits rest
    | _ => []
  if ds.isEmpty && fds.isEmpty then .nan
  else
    .num (sign * ((digitsToNat ds : Rat) +
      (digitsToNat fds : Rat) / ((10 : Rat) ^ fds.length)))

mutual
/-- JS string coercion `String(v)`, used when a value is interpolated into a
key or handed to the sanitizer. Rationals are rendered as numerator/denominator
(an approximation of JS float printing; no parser path reaches it). -/
def jsToString : Value → String
  | .undefined => "undefined"
  | .nan => "NaN"
  | .bool b => if b then "true" else "false"
  | .int n => toString n
  | .num q => if q.den = 1 then toString q.num else toString q.num ++ "/" ++ toString q.den
  | .str s => s
  | .arr xs => jsToStringList xs
  | .obj _ => "[object Object]"

/-- JS array-to-string coercion: elements joined with commas. -/
def jsToStringList : List Value → String
  | [] => ""
  | [x] => jsToString x
  | x :: rest => jsToString x ++ "," ++ jsToStringList rest
end

/-- One character of the sanitizer's full escaping: the HTML metacharacters
become entities, everything else is kept. Models the external `sanitizer`
package's `escape` at its interface boundary (the spec treats the sanitizer as
an opaque capability). -/
def escapeChar (c : Char) : String :=
  if c = '&' then "&amp;"
  else if c = '<' then "&lt;"
  else if c = '>' then "&gt;"
  else if c = '"' then "&quot;"
  else if c = '\'' then "&#39;"
  else String.singleton c

/-- Escape a character list, character by character. -/
def escapeChars : List Char → String
  | [] => ""
  | c :: rest => escapeChar c ++ escapeChars rest

/-- `sanitizer.escape(val)`: full HTML escaping of a string. -/
def escapeHtml (s : String) : String :=
  escapeChars s.toList

/-- `sanitizer.unescapeEntities`: external collaborator used only on the
`htmlFields` branch, which no claim exercises; modelled as the identity at the
opaque sanitizer boundary. -/
def unescapeEntities (s : String) : String :=
  s

/-- `sanitizer.sanitize`: external collaborator used only on the `htmlFields`
branch, which no claim exercises; modelled as the identity at the opaque
sanitizer boundary. -/
def sanitizeHtml (s : String) : String :=
  s

/-- Character-level worker for `jsSplit`: scan the characters, cutting a
piece whenever the (non-empty) separator is a prefix of the remainder. The
`fuel` argument, seeded with the string length plus one, only serves to make
the recursion structural; every step consumes at least one character, so it
never runs out on the seeded value. -/
def jsSplitAux (delim : List Char) (fuel : Nat) (cs : List Char) (acc : List Char) :
    List (List Char) :=
  match fuel with
  | 0 => [acc.reverse]
  | fuel + 1 =>
    match cs with
    | [] => [acc.reverse]
    | c :: rest =>
      if delim.isPrefixOf (c :: rest) && !delim.isEmpty then
        acc.reverse :: jsSplitAux delim fuel (List.drop delim.length (c :: rest)) []
      else jsSplitAux delim fuel rest (c :: acc)

/-- `String.prototype.split(sep)` for a non-empty separator (the delimiter
defaults to `"_"` and an empty one, which JS treats specially, never arises
here): the list of pieces between occurrences of the separator, always at
least one piece. -/
def jsSplit (s : String) (delim : String) : List String :=
  (jsSplitAux delim.toList (s.length + 1) s.toList []).map (fun l => String.mk l)

/-- The membership test `entitySchema && entitySchema.htmlFields &&
entitySchema.htmlFields.indexOf(fieldName) !== -1` of `parseSimpleType`. -/
def esHtmlFields (es : Option EntitySchema) (fn : String) : Bool :=
  match es with
  | some e => e.htmlFields.contains fn
  | none => false

/-- The truthiness test `entitySchema && entitySchema.mapping &&
entitySchema.mapping[fieldName]` of `setArray` (CSV-mode selection). -/
def esMapping (es : Option EntitySchema) (fn : String) : Bool :=
  match es with
  | some e => e.mapping.contains fn
  | none => false

/-- The parser's per-instance state: the flat dictionary behind the default
getter (`function*(name) { return self.dict[name]; }`; a custom
`options.getter` is modelled at this same interface), and
`options.delimiter`, already defaulted to `"_"` by the constructor. Values of
the flat source are strings (submitted form fields). -/
structure DictParser where
  dict : String → Option String
  delimiter : String

/-- `options` as `map` consumes them: only `overwrite` is read there. -/
structure Opts where
  overwrite : Bool
deriving DecidableEq, Repr

/-- `DictParser.prototype.parseSimpleType(val, fieldName, def, entitySchema)`:
falsy values pass through as `undefined`; otherwise dispatch on `def.type`,
converting to an integer, a float, a sanitized string (permissive
sanitization only for `htmlFields` members) or a strict boolean
(`val === true || val === "true"`); any other type throws. -/
def parseSimpleType (val : Value) (fieldName : String) (d : FieldDef)
    (es : Option EntitySchema) : Except JsErr Value :=
  if truthy val then
    match d.type with
    | "integer" => .ok (parseIntJs (jsToString val))
    | "number" => .ok (parseFloatJs (jsToString val))
    | "string" =>
      if esHtmlFields es fieldName then
        .ok (.str (sanitizeHtml (unescapeEntities (jsToString val))))
      else
        .ok (.str (escapeHtml (jsToString val)))
    | "boolean" =>
      .ok (.bool (match val with
        | .bool true => true
        | .str s => s == "true"
        | _ => false))
    | t =>
      .error (.jsError
        (t ++ " " ++ fieldName ++ " is not a primitive type or is an array. Cannot parse."))
  else .ok .undefined

/-- `DictParser.prototype.getField(name, def)`: `def` defaults to
`{ type: "string" }` (every call in the file omits it), the raw value comes
from the getter over the flat dictionary, a falsy value yields `undefined`,
and a truthy one is converted by `parseSimpleType` with no entity schema. -/
def getField (p : DictParser) (name : String) (d : Option FieldDef) :
    Except JsErr Value :=
  let dd := d.getD (FieldDef.mk "string" none none)
  match p.dict name with
  | none => .ok .undefined
  | some v => if v = "" then .ok .undefined else parseSimpleType (.str v) name dd none

/-- `DictParser.prototype.setSimpleType(obj, fieldName, def, entitySchema,
whitelist, options, parents)`: build the flat key from
`parents.concat(fieldName).join(this.options.delimiter)`, fetch it through
`getField` (which converts the raw value under the defaulted `string` type),
and if the fetched value is truthy convert it again under the field's own
definition and write it — push when the target is an array, otherwise assign
under `options.overwrite` (`obj[fieldName] = result` or
`obj[fieldName] = obj[fieldName] || result`), reporting a change either way.
The `whitelist` parameter is received but not read (the guard lives in
`setField`). -/
def setSimpleType (p : DictParser) (obj : Value) (fieldName : JsKey)
    (d : FieldDef) (es : Option EntitySchema) (_wl : Whitelist) (opts : Opts)
    (parents : List JsKey) : Except JsErr (Bool × Value) :=
  let formField := String.intercalate p.delimiter ((parents ++ [fieldName]).map JsKey.toStr)
  match getField p formField none with
  | .error e => .error e
  | .ok val =>
    if truthy val then
      match parseSimpleType val fieldName.toStr d es with
      | .error e => .error e
      | .ok result =>
        match obj with
        | .arr xs => .ok (true, .arr (xs ++ [result]))
        | _ =>
          if opts.overwrite then
            match setProp obj fieldName result with
            | .error e => .error e
            | .ok obj2 => .ok (true, obj2)
          else
            let old := getProp obj fieldName
            match setProp obj fieldName (if truthy old then old else result) with
            | .error e => .error e
            | .ok obj2 => .ok (true, obj2)
    else .ok (false, obj)

/-- The six mutually recursive operations of a mapping pass, at one fuel
level: `map_impl`, its `for in` loop (`mapFields`), `setField`, `setArray`,
the `while(true)` counter loop of `setArray` (`arrayLoop`) and
`setCustomType`. The pack is built by a single recursion on fuel
(`mapFuns`): the source's mutual recursion is tied through the
previous fuel level, so one unit of fuel is spent on every nested call (fuel
exhaustion, `.outOfFuel`, stands for divergence of the unbounded source
loop; any terminating source run is reproduced exactly by every sufficiently
large fuel). -/
structure MapFuns where
  map_implF : Value → EntitySchema → Whitelist → Opts → List JsKey →
    Except JsErr (Bool × Value)
  mapFieldsF : Value → List (String × FieldDef) → EntitySchema → Whitelist → Opts →
    List JsKey → Bool → Except JsErr (Bool × Value)
  setFieldF : Value → JsKey → FieldDef → Option EntitySchema → Whitelist → Opts →
    List JsKey → Except JsErr (Bool × Value)
  setArrayF : Value → JsKey → FieldDef → Option EntitySchema → Whitelist → Opts →
    List JsKey → Except JsErr (Bool × Value)
  arrayLoopF : Value → JsKey → FieldDef → Whitelist → Opts → List JsKey → Nat →
    Value → Bool → Except JsErr (Bool × Value)
  setCustomTypeF : Value → JsKey → FieldDef → Option EntitySchema → Whitelist → Opts →
    List JsKey → Except JsErr (Bool × Value)

/-- The bodies of the six operations, translated from the source; see the
doc comments on the wrappers `map_impl`, `mapFields`, `setField`, `setArray`,
`arrayLoop` and `setCustomType` below, which are the definitions the theorems
speak about. -/
def mapFuns (p : DictParser) : Nat → MapFuns
  | 0 =>
    { map_implF := fun _ _ _ _ _ => .error .outOfFuel
      mapFieldsF := fun _ _ _ _ _ _ _ => .error .outOfFuel
      setFieldF := fun _ _ _ _ _ _ _ => .error .outOfFuel
      setArrayF := fun _ _ _ _ _ _ _ => .error .outOfFuel
      arrayLoopF := fun _ _ _ _ _ _ _ _ _ => .error .outOfFuel
      setCustomTypeF := fun _ _ _ _ _ _ _ => .error .outOfFuel }
  | fuel + 1 =>
    let prev := mapFuns p fuel
    { map_implF := fun target es wl opts parents =>
        prev.mapFieldsF target es.properties es wl opts parents false
      mapFieldsF := fun target props es wl opts parents changed =>
        match props with
        | [] => .ok (changed, target)
        | (fieldName, d) :: rest =>
          let fieldWhiteList := wl.filter (fun e => decide (e.head? = some fieldName))
          match prev.setFieldF target (.str fieldName) d (some es) fieldWhiteList opts parents with
          | .error e => .error e
          | .ok (r, target2) =>
            prev.mapFieldsF target2 rest es wl opts parents (changed || r)
      setFieldF := fun obj fieldName d es wl opts parents =>
        if isPrimitiveType d.type then
          if d.type ≠ "array" then
            if wlHeadMatches wl fieldName then
              setSimpleType p obj fieldName d es wl opts parents
            else
              .ok (false, obj)
          else
            prev.setArrayF obj fieldName d es wl opts parents
        else
          prev.setCustomTypeF obj fieldName d es wl opts parents
      setArrayF := fun obj fieldName d es wl opts parents =>
        if esMapping es fieldName.toStr then
          match d.items with
          | none => .error (.typeError "Cannot read property type of undefined")
          | some it =>
            if it.type ≠ "array" then
              if wlContainsLiteral wl fieldName then
                match getField p (String.intercalate "_" ((parents ++ [fieldName]).map JsKey.toStr)) none with
                | .error e => .error e
                | .ok val =>
                  match val with
                  | .str s =>
                    if (jsSplit s ",").isEmpty then .ok (false, obj)
                    else .error (.typeError "Cannot read property parseSimpleType of undefined")
                  | _ => .error (.typeError "val.split is not a function")
              else .ok (false, obj)
            else .error (.jsError "Cannot map array of arrays")
        else
          let existing := getProp obj fieldName
          let newArr := if truthy existing then existing else .arr []
          prev.arrayLoopF obj fieldName d wl opts (parents ++ [fieldName]) 1 newArr false
      arrayLoopF := fun obj fieldName d wl opts parents counter newArr changed =>
        match d.items with
        | none => .error (.typeError "Cannot read property type of undefined")
        | some it =>
          match prev.setFieldF newArr (.num counter) it none wl opts parents with
          | .error e => .error e
          | .ok (r, newArr2) =>
            if r then
              match setProp obj fieldName newArr2 with
              | .error e => .error e
              | .ok obj2 =>
                prev.arrayLoopF obj2 fieldName d wl opts parents (counter + 1) newArr2 true
            else .ok (changed, obj)
      setCustomTypeF := fun obj fieldName d _es wl opts parents =>
        let wl2 := wl.map List.tail
        let parents2 := parents ++ [fieldName]
        match d.entitySchema with
        | none => .ok (false, obj)
        | some ces =>
          if ces.hasCtor then
            match prev.map_implF (.obj []) ces wl2 opts parents2 with
            | .error e => .error e
            | .ok (changed, newObj) =>
              if changed then
                match obj with
                | .arr xs => .ok (true, .arr (xs ++ [newObj]))
                | _ =>
                  match setProp obj fieldName newObj with
                  | .error e => .error e
                  | .ok obj2 => .ok (true, obj2)
              else .ok (false, obj)
          else .ok (false, obj) }

/-- `DictParser.prototype.map_impl(target, entitySchema, whitelist, options,
parents)`: iterate `entitySchema.schema.properties` in declared order,
filtering the whitelist down to the entries whose first segment is the field
name, dispatching each field through `setField`, and reporting whether any
field changed. -/
def map_impl (p : DictParser) (fuel : Nat) (target : Value) (es : EntitySchema)
    (wl : Whitelist) (opts : Opts) (parents : List JsKey) :
    Except JsErr (Bool × Value) :=
  (mapFuns p fuel).map_implF target es wl opts parents

/-- The `for (var fieldName in entitySchema.schema.properties)` loop of
`map_impl`, threading the target and the accumulated `changed` flag. -/
def mapFields (p : DictParser) (fuel : Nat) (target : Value)
    (props : List (String × FieldDef)) (es : EntitySchema) (wl : Whitelist)
    (opts : Opts) (parents : List JsKey) (changed : Bool) :
    Except JsErr (Bool × Value) :=
  (mapFuns p fuel).mapFieldsF target props es wl opts parents changed

/-- `DictParser.prototype.setField(obj, fieldName, def, entitySchema,
whitelist, options, parents)`: primitive non-array fields are extracted only
when the first whitelist entry's first segment strictly equals the field name;
`array` fields always go to `setArray`; anything else goes to
`setCustomType`. When the scalar guard fails the generator returns
`undefined`, which the callers treat as "no change" — modelled as
`(false, obj)`. -/
def setField (p : DictParser) (fuel : Nat) (obj : Value) (fieldName : JsKey)
    (d : FieldDef) (es : Option EntitySchema) (wl : Whitelist) (opts : Opts)
    (parents : List JsKey) : Except JsErr (Bool × Value) :=
  (mapFuns p fuel).setFieldF obj fieldName d es wl opts parents

/-- `DictParser.prototype.setArray(obj, fieldName, def, entitySchema,
whitelist, options, parents)`. CSV mode is selected when the enclosing
entity schema's `mapping` set holds the field name; it rejects item type
`"array"` (`throw new Error("Cannot map array of arrays")`), requires
`whitelist.indexOf(fieldName) !== -1` (which never holds — the entries are
split segment arrays, see `entryStrictEqKey`), and its body — were it ever
reached with a string value — dereferences `this` inside a non-arrow
`forEach` callback, `undefined` under strict mode, throwing a `TypeError` on
the first of the (always at least one) comma-split items; a non-string
fetched value fails earlier on `val.split`. Indexed mode seeds
`newArray = obj[fieldName] || []`, pushes the field name onto `parents`, and
runs the 1-based `while(true)` counter loop (`arrayLoop`); the source pops
`parents` on exit, so the pure model simply passes the extended list down. -/
def setArray (p : DictParser) (fuel : Nat) (obj : Value) (fieldName : JsKey)
    (d : FieldDef) (es : Option EntitySchema) (wl : Whitelist) (opts : Opts)
    (parents : List JsKey) : Except JsErr (Bool × Value) :=
  (mapFuns p fuel).setArrayF obj fieldName d es wl opts parents

/-- The `while(true)` counter loop of `setArray`'s indexed mode: feed the
counter to `setField` as the next field name against `def.items` (with `def`
itself standing as the enclosing entity schema — a plain `FieldDef` carries
no `mapping`/`htmlFields`, which is what the `none` argument models); while
an index reports a change, assign the accumulated array to `obj[fieldName]`
(`obj[fieldName] = obj[fieldName] || newArray`: when `obj[fieldName]` was
truthy it *is* `newArray` — the `||` keeps the same reference the pushes
mutated, so the net effect is always the updated array) and advance; the
first unchanged index breaks out, returning the accumulated flag. An absent
`def.items` makes the nested `setField` read `undefined.type` and throw. -/
def arrayLoop (p : DictParser) (fuel : Nat) (obj : Value) (fieldName : JsKey)
    (d : FieldDef) (wl : Whitelist) (opts : Opts) (parents : List JsKey)
    (counter : Nat) (newArr : Value) (changed : Bool) :
    Except JsErr (Bool × Value) :=
  (mapFuns p fuel).arrayLoopF obj fieldName d wl opts parents counter newArr changed

/-- `DictParser.prototype.setCustomType(obj, fieldName, def, entitySchema,
whitelist, options, parents)`: strip the leading segment off every whitelist
entry (`a.slice(1)`), extend `parents` with the field name, and only when the
field's own entity schema declares a constructor build a fresh object
(`new def.entitySchema.ctor()`, a fresh empty instance), recursively map into
it, and attach it to the parent (assign by field name, or push when the
parent is an array) only if some descendant changed. -/
def setCustomType (p : DictParser) (fuel : Nat) (obj : Value) (fieldName : JsKey)
    (d : FieldDef) (es : Option EntitySchema) (wl : Whitelist) (opts : Opts)
    (parents : List JsKey) : Except JsErr (Bool × Value) :=
  (mapFuns p fuel).setCustomTypeF obj fieldName d es wl opts parents

/-- The split `map` intends for each whitelist entry:
`e.split(this.options.delimiter)`. `map` itself never gets this far with a
non-empty whitelist (see `DictParser.map`), but this is what its callback
computes when `this` is bound, and the shape `map_impl` expects. -/
def splitWhitelist (delim : String) (wl : List String) : Whitelist :=
  wl.map (fun e => jsSplit e delim)

/-- `DictParser.prototype.map(target, entitySchema, whitelist, options,
parents)`: defaults `options` to `{ overwrite: true }` and `parents` to `[]`,
then splits each whitelist entry with
`whitelist.map(function(e) { return e.split(this.options.delimiter); })`.
The callback is a plain (non-arrow) function invoked by `Array.prototype.map`
with no `this` binding; the file is strict (`"use strict"`), so inside the
callback `this` is `undefined` and `this.options` throws a `TypeError` as
soon as the callback runs — that is, on the first entry of any non-empty
whitelist, before any value lookup or target write. Only an empty whitelist
(callback never invoked) reaches `map_impl`. -/
def DictParser.map (p : DictParser) (fuel : Nat) (target : Value)
    (es : EntitySchema) (whitelist : List String) (optsIn : Option Opts)
    (parentsIn : Option (List JsKey)) : Except JsErr (Bool × Value) :=
  let opts := optsIn.getD (Opts.mk true)
  let parents := parentsIn.getD []
  match whitelist with
  | [] => map_impl p fuel target es [] opts parents
  | _ :: _ => .error (.typeError "Cannot read property options of undefined")

/-! ## Concrete fixtures used by the claim theorems and their witnesses -/

/-- A `{ type: "string" }` field definition. -/
def strDef : FieldDef := .mk "string" none none

/-- A `{ type: "integer" }` field definition. -/
def intDef : FieldDef := .mk "integer" none none

/-- The schema of the spec's scenario: `{ name: "string", age: "integer" }`. -/
def nameAgeSchema : EntitySchema := .mk [("name", strDef), ("age", intDef)] false [] []

/-- The value source of the spec's scenario:
`{ name: "jeswin", age: "33" }`. -/
def nameAgeParser : DictParser :=
  ⟨fun s => if s = "name" then some "jeswin" else if s = "age" then some "33" else none, "_"⟩

/-- A schema with one CSV-mode array field:
`customerids` of item type `integer`, named in `mapping`. -/
def csvSchema : EntitySchema :=
  .mk [("customerids", .mk "array" (some intDef) none)] false ["customerids"] []

/-- The flat source `{ customerids: "1,54,66" }`. -/
def csvParser : DictParser :=
  ⟨fun s => if s = "customerids" then some "1,54,66" else none, "_"⟩

/-- The nested entity schema `{ name: "string" }` with a constructor. -/
def customerSchema : EntitySchema := .mk [("name", strDef)] true [] []

/-- A custom-typed field built from `customerSchema`. -/
def customerDef : FieldDef := .mk "customer" none (some customerSchema)

/-- A schema with one indexed-mode array field `customers` whose items are
`customerDef` objects. -/
def customersSchema : EntitySchema :=
  .mk [("customers", .mk "array" (some customerDef) none)] false [] []

/-- A flat source with customer names at indices 1, 2 and 4 but not 3; the
value at index 4 is left as a parameter to show it is never consulted. -/
def gapParser (v4 : Option String) : DictParser :=
  ⟨fun s => if s = "customers_4_name" then v4
    else if s = "customers_1_name" then some "a"
    else if s = "customers_2_name" then some "b"
    else none, "_"⟩

/-- A flat source holding exactly one customer name. -/
def oneCustomerParser : DictParser :=
  ⟨fun s => if s = "customers_1_name" then some "a" else none, "_"⟩

/-- The schema `{ age: "integer" }`. -/
def ageSchema : EntitySchema := .mk [("age", intDef)] false [] []

/-- The flat source `{ age: "33" }`. -/
def ageParser : DictParser :=
  ⟨fun s => if s = "age" then some "33" else none, "_"⟩

/-- A schema with an indexed-mode array of arrays: `matrix` has item type
`"array"`, whose own items are `customerDef` objects. -/
def matrixSchema : EntitySchema :=
  .mk [("matrix", .mk "array" (some (.mk "array" (some customerDef) none)) none)] false [] []

/-- The flat source `{ matrix_1_1_name: "x" }`. -/
def matrixParser : DictParser :=
  ⟨fun s => if s = "matrix_1_1_name" then some "x" else none, "_"⟩

/-! ## Claim theorems: concrete evaluations -/

/-- C2: the spec scenario — schema `{ name: string, age: integer }`, source
`{ name: "jeswin", age: "33" }`, whitelist `["name","age"]`, default options,
empty keyed target. The claim says `map` terminates normally with target
`{ name: "jeswin", age: 33 }` and returns `true`. In the code as written,
`map` throws a `TypeError` while splitting the non-empty whitelist (first
conjunct, the strict-mode `this` bug); the mapping pass itself, fed the split
whitelist the callback was meant to produce, does yield exactly the claimed
target and `true` (second conjunct), which is why the claim is recorded as a
code bug rather than a spec error. -/
theorem map_scenario_name_age_eval :
    DictParser.map nameAgeParser 100 (Value.obj []) nameAgeSchema ["name", "age"] none none =
      .error (.typeError "Cannot read property options of undefined") ∧
    map_impl nameAgeParser 100 (Value.obj []) nameAgeSchema
        (splitWhitelist "_" ["name", "age"]) ⟨true⟩ [] =
      .ok (true, .obj [("name", .str "jeswin"), ("age", .int 33)]) :=
  ⟨rfl, rfl⟩

/-- C3: the CSV scenario — `customerids` named in `mapping`, item type
`integer`, flat value `"1,54,66"`, whitelisted as `["customerids"]`. The
claim says the field is split on commas and the target ends up with
`[1, 54, 66]` and a change reported. In the code, the CSV branch's whitelist
test compares the bare field name against the already-split entries with
strict equality, which never succeeds (second conjunct), so the pass writes
nothing at all and reports no change (first conjunct). -/
theorem csv_scenario_never_writes_eval :
    map_impl csvParser 100 (Value.obj []) csvSchema
        (splitWhitelist "_" ["customerids"]) ⟨true⟩ [] =
      .ok (false, Value.obj []) ∧
    wlContainsLiteral (splitWhitelist "_" ["customerids"]) (.str "customerids") = false :=
  ⟨rfl, rfl⟩

/-- C7 counterexample: with `overwrite = true` and the deterministic source
`{ customers_1_name: "a" }`, the first pass yields
`{ customers: [{name:"a"}] }`, but applying the pass again to that target
appends a duplicate element, yielding `{ customers: [{name:"a"},{name:"a"}] }`
— a different target, so `map` is not idempotent as the claim states. -/
theorem map_overwrite_not_idempotent_cex :
    map_impl oneCustomerParser 100 (Value.obj []) customersSchema
        (splitWhitelist "_" ["customers_name"]) ⟨true⟩ [] =
      .ok (true, .obj [("customers", .arr [.obj [("name", .str "a")]])]) ∧
    map_impl oneCustomerParser 100
        (Value.obj [("customers", .arr [.obj [("name", .str "a")]])]) customersSchema
        (splitWhitelist "_" ["customers_name"]) ⟨true⟩ [] =
      .ok (true, .obj [("customers",
        .arr [.obj [("name", .str "a")], .obj [("name", .str "a")]])]) ∧
    Value.obj [("customers", .arr [.obj [("name", .str "a")], .obj [("name", .str "a")]])] ≠
      Value.obj [("customers", .arr [.obj [("name", .str "a")]])] :=
  ⟨rfl, rfl, by simp⟩

/-- C8 counterexample: with `overwrite = false`, a scalar field that is
already set — here `age` holding `0`, a falsy value — is replaced by the
freshly fetched `33`: `obj[fieldName] = obj[fieldName] || result` only
preserves truthy existing values, not every previously set one. -/
theorem overwrite_false_replaces_falsy_cex :
    map_impl ageParser 10 (Value.obj [("age", .int 0)]) ageSchema
        (splitWhitelist "_" ["age"]) ⟨false⟩ [] =
      .ok (true, .obj [("age", .int 33)]) ∧
    Value.int 33 ≠ Value.int 0 :=
  ⟨rfl, by simp⟩

/-- C9 counterexample: an indexed-mode (not CSV) array whose item type is
itself `"array"` does not make the pass fail: with source
`{ matrix_1_1_name: "x" }` and whitelist `["matrix_name"]` the pass completes
normally — no `"Cannot map array of arrays"` error is raised (that throw sits
only in the CSV branch) — and it even constructs an array of arrays on the
target (index 0 is the hole JS leaves below the 1-based counter). -/
theorem indexed_nested_array_no_error_cex :
    map_impl matrixParser 100 (Value.obj []) matrixSchema
        (splitWhitelist "_" ["matrix_name"]) ⟨true⟩ [] =
      .ok (true, .obj [("matrix", .arr [.undefined, .arr [.obj [("name", .str "x")]]])]) :=
  rfl

/-! ## Unfolding equations for the fuel-indexed operations

Each operation satisfies a definitional equation at fuel `0` and at a
successor; the induction proofs below rewrite with these. -/

theorem map_impl_zero (p : DictParser) (target : Value) (es : EntitySchema)
    (wl : Whitelist) (opts : Opts) (parents : List JsKey) :
    map_impl p 0 target es wl opts parents = .error .outOfFuel := rfl

theorem map_impl_succ (p : DictParser) (fuel : Nat) (target : Value)
    (es : EntitySchema) (wl : Whitelist) (opts : Opts) (parents : List JsKey) :
    map_impl p (fuel + 1) target es wl opts parents =
      mapFields p fuel target es.properties es wl opts parents false := rfl

theorem mapFields_zero (p : DictParser) (target : Value)
    (props : List (String × FieldDef)) (es : EntitySchema) (wl : Whitelist)
    (opts : Opts) (parents : List JsKey) (changed : Bool) :
    mapFields p 0 target props es wl opts parents changed = .error .outOfFuel := rfl

theorem mapFields_succ_nil (p : DictParser) (fuel : Nat) (target : Value)
    (es : EntitySchema) (wl : Whitelist) (opts : Opts) (parents : List JsKey)
    (changed : Bool) :
    mapFields p (fuel + 1) target [] es wl opts parents changed =
      .ok (changed, target) := rfl

theorem mapFields_succ_cons (p : DictParser) (fuel : Nat) (target : Value)
    (fieldName : String) (d : FieldDef) (rest : List (String × FieldDef))
    (es : EntitySchema) (wl : Whitelist) (opts : Opts) (parents : List JsKey)
    (changed : Bool) :
    mapFields p (fuel + 1) target ((fieldName, d) :: rest) es wl opts parents changed =
      (match setField p fuel target (.str fieldName) d (some es)
          (wl.filter (fun e => decide (e.head? = some fieldName))) opts parents with
       | .error e => .error e
       | .ok (r, target2) =>
         mapFields p fuel target2 rest es wl opts parents (changed || r)) := rfl

theorem setField_zero (p : DictParser) (obj : Value) (fieldName : JsKey)
    (d : FieldDef) (es : Option EntitySchema) (wl : Whitelist) (opts : Opts)
    (parents : List JsKey) :
    setField p 0 obj fieldName d es wl opts parents = .error .outOfFuel := rfl

theorem setField_succ (p : DictParser) (fuel : Nat) (obj : Value)
    (fieldName : JsKey) (d : FieldDef) (es : Option EntitySchema) (wl : Whitelist)
    (opts : Opts) (parents : List JsKey) :
    setField p (fuel + 1) obj fieldName d es wl opts parents =
      (if isPrimitiveType d.type then
        if d.type ≠ "array" then
          if wlHeadMatches wl fieldName then
            setSimpleType p obj fieldName d es wl opts parents
          else
            .ok (false, obj)
        else
          setArray p fuel obj fieldName d es wl opts parents
      else
        setCustomType p fuel obj fieldName d es wl opts parents) := rfl

theorem setArray_zero (p : DictParser) (obj : Value) (fieldName : JsKey)
    (d : FieldDef) (es : Option EntitySchema) (wl : Whitelist) (opts : Opts)
    (parents : List JsKey) :
    setArray p 0 obj fieldName d es wl opts parents = .error .outOfFuel := rfl

theorem setArray_succ (p : DictParser) (fuel : Nat) (obj : Value)
    (fieldName : JsKey) (d : FieldDef) (es : Option EntitySchema) (wl : Whitelist)
    (opts : Opts) (parents : List JsKey) :
    setArray p (fuel + 1) obj fieldName d es wl opts parents =
      (if esMapping es fieldName.toStr then
        match d.items with
        | none => .error (.typeError "Cannot read property type of undefined")
        | some it =>
          if it.type ≠ "array" then
            if wlContainsLiteral wl fieldName then
              match getField p (String.intercalate "_" ((parents ++ [fieldName]).map JsKey.toStr)) none with
              | .error e => .error e
              | .ok val =>
                match val with
                | .str s =>
                  if (jsSplit s ",").isEmpty then .ok (false, obj)
                  else .error (.typeError "Cannot read property parseSimpleType of undefined")
                | _ => .error (.typeError "val.split is not a function")
            else .ok (false, obj)
          else .error (.jsError "Cannot map array of arrays")
      else
        let existing := getProp obj fieldName
        let newArr := if truthy existing then existing else .arr []
        arrayLoop p fuel obj fieldName d wl opts (parents ++ [fieldName]) 1 newArr false) := rfl

theorem arrayLoop_zero (p : DictParser) (obj : Value) (fieldName : JsKey)
    (d : FieldDef) (wl : Whitelist) (opts : Opts) (parents : List JsKey)
    (counter : Nat) (newArr : Value) (changed : Bool) :
    arrayLoop p 0 obj fieldName d wl opts parents counter newArr changed =
      .error .outOfFuel := rfl

theorem arrayLoop_succ (p : DictParser) (fuel : Nat) (obj : Value)
    (fieldName : JsKey) (d : FieldDef) (wl : Whitelist) (opts : Opts)
    (parents : List JsKey) (counter : Nat) (newArr : Value) (changed : Bool) :
    arrayLoop p (fuel + 1) obj fieldName d wl opts parents counter newArr changed =
      (match d.items with
       | none => .error (.typeError "Cannot read property type of undefined")
       | some it =>
         match setField p fuel newArr (.num counter) it none wl opts parents with
         | .error e => .error e
         | .ok (r, newArr2) =>
           if r then
             match setProp obj fieldName newArr2 with
             | .error e => .error e
             | .ok obj2 =>
               arrayLoop p fuel obj2 fieldName d wl opts parents (counter + 1) newArr2 true
           else .ok (changed, obj)) := rfl

theorem setCustomType_zero (p : DictParser) (obj : Value) (fieldName : JsKey)
    (d : FieldDef) (es : Option EntitySchema) (wl : Whitelist) (opts : Opts)
    (parents : List JsKey) :
    setCustomType p 0 obj fieldName d es wl opts parents = .error .outOfFuel := rfl

theorem setCustomType_succ (p : DictParser) (fuel : Nat) (obj : Value)
    (fieldName : JsKey) (d : FieldDef) (es : Option EntitySchema) (wl : Whitelist)
    (opts : Opts) (parents : List JsKey) :
    setCustomType p (fuel + 1) obj fieldName d es wl opts parents =
      (match d.entitySchema with
       | none => .ok (false, obj)
       | some ces =>
         if ces.hasCtor then
           match map_impl p fuel (.obj []) ces (wl.map List.tail) opts (parents ++ [fieldName]) with
           | .error e => .error e
           | .ok (changed, newObj) =>
             if changed then
               match obj with
               | .arr xs => .ok (true, .arr (xs ++ [newObj]))
               | _ =>
                 match setProp obj fieldName newObj with
                 | .error e => .error e
                 | .ok obj2 => .ok (true, obj2)
             else .ok (false, obj)
         else .ok (false, obj)) := rfl

/-- The scalar guard of `setField` never matches an empty whitelist. -/
theorem wlHeadMatches_nil (k : JsKey) : wlHeadMatches [] k = false := rfl

/-- The scalar guard of `setField` never matches a numeric field name: the
segments are strings and `===` distinguishes strings from numbers. -/
theorem wlHeadMatches_num (wl : Whitelist) (n : Nat) :
    wlHeadMatches wl (.num n) = false := by
  cases wl with
  | nil => rfl
  | cons e rest => cases e <;> rfl

/-- The CSV whitelist membership test never succeeds: split entries are
arrays, never strictly equal to the bare field name. -/
theorem wlContainsLiteral_false (wl : Whitelist) (k : JsKey) :
    wlContainsLiteral wl k = false := by
  induction wl with
  | nil => rfl
  | cons e rest ih => simp [wlContainsLiteral, entryStrictEqKey]

/-! ## No write without a whitelist entry -/

/-- Master induction: with an empty whitelist, every operation of the pass
that completes does nothing — it reports no change (beyond the flag it was
handed) and returns the target untouched. The six conjuncts cover
`map_impl`, `mapFields`, `setField`, `setArray`, `arrayLoop` and
`setCustomType`. -/
theorem noChangeOnEmptyWhitelist (fuel : Nat) :
    (∀ p obj es opts parents r,
      map_impl p fuel obj es [] opts parents = .ok r → r = (false, obj)) ∧
    (∀ p obj props es opts parents chg r,
      mapFields p fuel obj props es [] opts parents chg = .ok r → r = (chg, obj)) ∧
    (∀ p obj fn d es opts parents r,
      setField p fuel obj fn d es [] opts parents = .ok r → r = (false, obj)) ∧
    (∀ p obj fn d es opts parents r,
      setArray p fuel obj fn d es [] opts parents = .ok r → r = (false, obj)) ∧
    (∀ p obj fn d opts parents counter newArr chg r,
      arrayLoop p fuel obj fn d [] opts parents counter newArr chg = .ok r → r = (chg, obj)) ∧
    (∀ p obj fn d es opts parents r,
      setCustomType p fuel obj fn d es [] opts parents = .ok r → r = (false, obj)) := by
  induction fuel with
  | zero =>
    refine ⟨?_, ?_, ?_, ?_, ?_, ?_⟩ <;> intros p obj <;> intros <;>
      simp_all [map_impl_zero, mapFields_zero, setField_zero, setArray_zero,
        arrayLoop_zero, setCustomType_zero]
  | succ fuel ih =>
    obtain ⟨ihm, ihf, ihsf, ihsa, ihlp, ihct⟩ := ih
    refine ⟨?_, ?_, ?_, ?_, ?_, ?_⟩
    · intro p obj es opts parents r h
      rw [map_impl_succ] at h
      exact ihf p obj es.properties es opts parents false r h
    · intro p obj props es opts parents chg r h
      cases props with
      | nil =>
        rw [mapFields_succ_nil] at h
        injection h with h2
        exact h2.symm
      | cons hd rest =>
        obtain ⟨fn, d⟩ := hd
        rw [mapFields_succ_cons] at h
        simp only [List.filter_nil] at h
        cases hsf : setField p fuel obj (.str fn) d (some es) [] opts parents with
        | error e => simp only [hsf] at h; exact Except.noConfusion h
        | ok pr =>
          obtain ⟨r0, t2⟩ := pr
          have heq := ihsf p obj (.str fn) d (some es) opts parents (r0, t2) hsf
          injection heq with hr0 ht2
          rw [hr0, ht2] at hsf
          simp only [hsf, Bool.or_false] at h
          exact ihf p obj rest es opts parents chg r h
    · intro p obj fn d es opts parents r h
      rw [setField_succ] at h
      by_cases hp : isPrimitiveType d.type
      · rw [if_pos hp] at h
        by_cases ha : d.type ≠ "array"
        · rw [if_pos ha, wlHeadMatches_nil] at h
          simp only [Bool.false_eq_true, if_false] at h
          injection h with h2
          exact h2.symm
        · rw [if_neg ha] at h
          exact ihsa p obj fn d es opts parents r h
      · rw [if_neg hp] at h
        exact ihct p obj fn d es opts parents r h
    · intro p obj fn d es opts parents r h
      rw [setArray_succ] at h
      by_cases hm : esMapping es fn.toStr
      · rw [if_pos hm] at h
        cases hit : d.items with
        | none => simp only [hit] at h; exact Except.noConfusion h
        | some it =>
          simp only [hit] at h
          by_cases ha : it.type ≠ "array"
          · rw [if_pos ha, wlContainsLiteral_false] at h
            simp only [Bool.false_eq_true, if_false] at h
            injection h with h2
            exact h2.symm
          · rw [if_neg ha] at h
            simp at h
      · rw [if_neg hm] at h
        exact ihlp p obj fn d opts (parents ++ [fn]) 1 _ false r h
    · intro p obj fn d opts parents counter newArr chg r h
      rw [arrayLoop_succ] at h
      cases hit : d.items with
      | none => simp only [hit] at h; exact Except.noConfusion h
      | some it =>
        simp only [hit] at h
        cases hsf : setField p fuel newArr (.num counter) it none [] opts parents with
        | error e => simp only [hsf] at h; exact Except.noConfusion h
        | ok pr =>
          obtain ⟨r0, na2⟩ := pr
          have heq := ihsf p newArr (.num counter) it none opts parents (r0, na2) hsf
          injection heq with hr0 hna2
          subst hr0
          simp only [hsf, Bool.false_eq_true, if_false] at h
          injection h with h2
          exact h2.symm
    · intro p obj fn d es opts parents r h
      rw [setCustomType_succ] at h
      cases hes : d.entitySchema with
      | none =>
        simp only [hes] at h
        injection h with h2
        exact h2.symm
      | some ces =>
        simp only [hes, List.map_nil] at h
        by_cases hc : ces.hasCtor
        · rw [if_pos hc] at h
          cases hmp : map_impl p fuel (.obj []) ces [] opts (parents ++ [fn]) with
          | error e => simp only [hmp] at h; exact Except.noConfusion h
          | ok pr =>
            obtain ⟨c0, newObj⟩ := pr
            have heq := ihm p (.obj []) ces opts (parents ++ [fn]) (c0, newObj) hmp
            injection heq with hc0 hno
            subst hc0
            simp only [hmp, Bool.false_eq_true, if_false] at h
            injection h with h2
            exact h2.symm
        · rw [if_neg hc] at h
          injection h with h2
          exact h2.symm

/-- C1: for every call to `map` with a non-empty whitelist, the pass fails
with a `TypeError` before any value lookup or target write — the theorem
holds for every parser state `p` (hence every value source) and every target,
and the error is raised while splitting the whitelist, before `map_impl`
runs. With an empty whitelist the callback never runs, `map_impl` executes,
and (second conjunct) a completed pass reports no change and leaves the
target exactly as it was: no field is ever written. -/
theorem map_nonempty_whitelist_type_error (p : DictParser) (fuel : Nat)
    (target : Value) (es : EntitySchema) (whitelist : List String)
    (optsIn : Option Opts) (parentsIn : Option (List JsKey)) :
    (whitelist ≠ [] →
      DictParser.map p fuel target es whitelist optsIn parentsIn =
        .error (.typeError "Cannot read property options of undefined")) ∧
    (∀ r, DictParser.map p fuel target es [] optsIn parentsIn = .ok r →
      r = (false, target)) := by
  constructor
  · intro hn
    cases whitelist with
    | nil => exact absurd rfl hn
    | cons a as => rfl
  · intro r h
    exact (noChangeOnEmptyWhitelist fuel).1 p target es _ _ r h

/-- Witness for C1 at a concrete input: whitelist `["name"]` raises the
`TypeError`, and the empty-whitelist run returns `(false, target)`. -/
theorem map_nonempty_whitelist_type_error_witness :
    DictParser.map nameAgeParser 5 (Value.obj []) nameAgeSchema ["name"] none none =
      .error (.typeError "Cannot read property options of undefined") ∧
    ((false, Value.obj []) : Bool × Value) = (false, Value.obj []) :=
  ⟨(map_nonempty_whitelist_type_error nameAgeParser 5 (Value.obj []) nameAgeSchema
      ["name"] none none).1 (by simp),
   (map_nonempty_whitelist_type_error nameAgeParser 5 (Value.obj []) nameAgeSchema
      [] none none).2 (false, Value.obj []) rfl⟩

/-! ## A field write only touches its own key -/

theorem JsKey.toStr_str (s : String) : (JsKey.str s).toStr = s := rfl

/-- Updating one key of an object leaves every other key unchanged. -/
theorem objGet_objSet_ne (fs : List (String × Value)) (k k2 : String) (v : Value)
    (h : k2 ≠ k) : objGet (objSet fs k v) k2 = objGet fs k2 := by
  induction fs with
  | nil =>
    simp only [objSet, objGet]
    rw [if_neg (fun hh : k = k2 => h hh.symm)]
  | cons hd rest ih =>
    obtain ⟨k3, v3⟩ := hd
    by_cases h3 : k3 = k
    · subst h3
      simp only [objSet, if_pos rfl, objGet]
      rw [if_neg (fun hh : k3 = k2 => h (hh ▸ rfl)), if_neg (fun hh : k3 = k2 => h (hh ▸ rfl))]
    · simp only [objSet, if_neg h3, objGet]
      by_cases h4 : k3 = k2
      · rw [if_pos h4, if_pos h4]
      · rw [if_neg h4, if_neg h4]
        exact ih

/-- Updating one key makes that key read the written value. -/
theorem objGet_objSet_self (fs : List (String × Value)) (k : String) (v : Value) :
    objGet (objSet fs k v) k = some v := by
  induction fs with
  | nil => simp [objSet, objGet]
  | cons hd rest ih =>
    obtain ⟨k3, v3⟩ := hd
    by_cases h3 : k3 = k
    · subst h3
      simp [objSet, objGet]
    · simp only [objSet, if_neg h3, objGet, if_neg h3]
      exact ih

/-- Writing back the value a key already holds leaves the object unchanged. -/
theorem objSet_objGet_self (fs : List (String × Value)) (k : String) (v : Value)
    (h : objGet fs k = some v) : objSet fs k v = fs := by
  induction fs with
  | nil => exact absurd h (by simp [objGet])
  | cons hd rest ih =>
    obtain ⟨k3, v3⟩ := hd
    by_cases h3 : k3 = k
    · subst h3
      simp only [objGet, if_pos rfl] at h
      injection h with h2
      simp [objSet, h2]
    · simp only [objGet, if_neg h3] at h
      simp only [objSet, if_neg h3, List.cons.injEq, true_and]
      exact ih h

/-- A property write at key `k` does not change how any other string key
reads. -/
theorem setProp_getProp_ne (obj : Value) (k : JsKey) (x : Value) (obj2 : Value)
    (h : setProp obj k x = .ok obj2) (s : String) (hs : s ≠ k.toStr) :
    getProp obj2 (.str s) = getProp obj (.str s) := by
  cases obj with
  | obj fs =>
    simp only [setProp, Except.ok.injEq] at h
    subst h
    simp only [getProp, JsKey.toStr_str]
    rw [objGet_objSet_ne fs k.toStr s x hs]
  | arr xs =>
    cases k with
    | str s2 => exact absurd h (by simp [setProp])
    | num n =>
      simp only [setProp, Except.ok.injEq] at h
      subst h
      rfl
  | undefined => exact absurd h (by simp [setProp])
  | nan => exact absurd h (by simp [setProp])
  | bool b => exact absurd h (by simp [setProp])
  | int n => exact absurd h (by simp [setProp])
  | num q => exact absurd h (by simp [setProp])
  | str s2 => exact absurd h (by simp [setProp])

/-- `setSimpleType` only ever writes the field it was given: every other
string key of the target reads as before (array targets only gain an
element, which no string key observes). -/
theorem setSimpleTypeOwnKey (p : DictParser) (obj : Value) (fn : JsKey)
    (d : FieldDef) (es : Option EntitySchema) (wl : Whitelist) (opts : Opts)
    (parents : List JsKey) (c : Bool) (t' : Value)
    (h : setSimpleType p obj fn d es wl opts parents = .ok (c, t'))
    (s : String) (hs : s ≠ fn.toStr) :
    getProp t' (.str s) = getProp obj (.str s) := by
  unfold setSimpleType at h
  cases hgf : getField p (String.intercalate p.delimiter ((parents ++ [fn]).map JsKey.toStr)) none with
  | error e => simp only [hgf] at h; exact Except.noConfusion h
  | ok val =>
    simp only [hgf] at h
    by_cases hv : truthy val
    · rw [if_pos hv] at h
      cases hps : parseSimpleType val fn.toStr d es with
      | error e => simp only [hps] at h; exact Except.noConfusion h
      | ok result =>
        simp only [hps] at h
        split at h
        · injection h with h2
          injection h2 with hc ht
          rw [← ht]
          rfl
        · split at h
          · cases hsp : setProp obj fn result with
            | error e => simp only [hsp] at h; exact Except.noConfusion h
            | ok obj2 =>
              simp only [hsp] at h
              injection h with h2
              injection h2 with hc ht
              rw [← ht]
              exact setProp_getProp_ne obj fn result obj2 hsp s hs
          · cases hsp : setProp obj fn (if truthy (getProp obj fn) then getProp obj fn else result) with
            | error e => simp only [hsp] at h; exact Except.noConfusion h
            | ok obj2 =>
              simp only [hsp] at h
              injection h with h2
              injection h2 with hc ht
              rw [← ht]
              exact setProp_getProp_ne obj fn _ obj2 hsp s hs
    · rw [if_neg hv] at h
      injection h with h2
      injection h2 with hc ht
      rw [← ht]

/-- Master induction: a completed `setField` (and each operation it
dispatches to) only ever writes the target key it was given — every other
string key of the target reads exactly as before the call. -/
theorem writesOnlyOwnKey (fuel : Nat) :
    (∀ p obj fn d es wl opts parents c t',
      setField p fuel obj fn d es wl opts parents = .ok (c, t') →
      ∀ s, s ≠ JsKey.toStr fn → getProp t' (.str s) = getProp obj (.str s)) ∧
    (∀ p obj fn d es wl opts parents c t',
      setArray p fuel obj fn d es wl opts parents = .ok (c, t') →
      ∀ s, s ≠ JsKey.toStr fn → getProp t' (.str s) = getProp obj (.str s)) ∧
    (∀ p obj fn d wl opts parents counter newArr chg c t',
      arrayLoop p fuel obj fn d wl opts parents counter newArr chg = .ok (c, t') →
      ∀ s, s ≠ JsKey.toStr fn → getProp t' (.str s) = getProp obj (.str s)) ∧
    (∀ p obj fn d es wl opts parents c t',
      setCustomType p fuel obj fn d es wl opts parents = .ok (c, t') →
      ∀ s, s ≠ JsKey.toStr fn → getProp t' (.str s) = getProp obj (.str s)) := by
  induction fuel with
  | zero =>
    refine ⟨?_, ?_, ?_, ?_⟩ <;> intros p obj <;> intros <;>
      simp_all [setField_zero, setArray_zero, arrayLoop_zero, setCustomType_zero]
  | succ fuel ih =>
    obtain ⟨ihsf, ihsa, ihlp, ihct⟩ := ih
    refine ⟨?_, ?_, ?_, ?_⟩
    · intro p obj fn d es wl opts parents c t' h s hs
      rw [setField_succ] at h
      by_cases hp : isPrimitiveType d.type
      · rw [if_pos hp] at h
        by_cases ha : d.type ≠ "array"
        · rw [if_pos ha] at h
          by_cases hw : wlHeadMatches wl fn
          · rw [if_pos hw] at h
            exact setSimpleTypeOwnKey p obj fn d es wl opts parents c t' h s hs
          · rw [if_neg hw] at h
            injection h with h2
            injection h2 with hc ht
            rw [← ht]
        · rw [if_neg ha] at h
          exact ihsa p obj fn d es wl opts parents c t' h s hs
      · rw [if_neg hp] at h
        exact ihct p obj fn d es wl opts parents c t' h s hs
    · intro p obj fn d es wl opts parents c t' h s hs
      rw [setArray_succ] at h
      by_cases hm : esMapping es fn.toStr
      · rw [if_pos hm] at h
        cases hit : d.items with
        | none => simp only [hit] at h; exact Except.noConfusion h
        | some it =>
          simp only [hit] at h
          by_cases ha : it.type ≠ "array"
          · rw [if_pos ha, wlContainsLiteral_false] at h
            simp only [Bool.false_eq_true, if_false] at h
            injection h with h2
            injection h2 with hc ht
            rw [← ht]
          · rw [if_neg ha] at h
            exact Except.noConfusion h
      · rw [if_neg hm] at h
        exact ihlp p obj fn d wl opts (parents ++ [fn]) 1 _ false c t' h s hs
    · intro p obj fn d wl opts parents counter newArr chg c t' h s hs
      rw [arrayLoop_succ] at h
      cases hit : d.items with
      | none => simp only [hit] at h; exact Except.noConfusion h
      | some it =>
        simp only [hit] at h
        cases hsf : setField p fuel newArr (.num counter) it none wl opts parents with
        | error e => simp only [hsf] at h; exact Except.noConfusion h
        | ok pr =>
          obtain ⟨r0, na2⟩ := pr
          simp only [hsf] at h
          cases r0 with
          | false =>
            simp only [Bool.false_eq_true, if_false] at h
            injection h with h2
            injection h2 with hc ht
            rw [← ht]
          | true =>
            simp only [if_true] at h
            cases hsp : setProp obj fn na2 with
            | error e => simp only [hsp] at h; exact Except.noConfusion h
            | ok obj2 =>
              simp only [hsp] at h
              rw [ihlp p obj2 fn d wl opts parents (counter + 1) na2 true c t' h s hs]
              exact setProp_getProp_ne obj fn na2 obj2 hsp s hs
    · intro p obj fn d es wl opts parents c t' h s hs
      rw [setCustomType_succ] at h
      cases hes : d.entitySchema with
      | none =>
        simp only [hes] at h
        injection h with h2
        injection h2 with hc ht
        rw [← ht]
      | some ces =>
        simp only [hes] at h
        by_cases hc : ces.hasCtor
        · rw [if_pos hc] at h
          cases hmp : map_impl p fuel (.obj []) ces (wl.map List.tail) opts (parents ++ [fn]) with
          | error e => simp only [hmp] at h; exact Except.noConfusion h
          | ok pr =>
            obtain ⟨c0, newObj⟩ := pr
            simp only [hmp] at h
            cases c0 with
            | false =>
              simp only [Bool.false_eq_true, if_false] at h
              injection h with h2
              injection h2 with hc2 ht
              rw [← ht]
            | true =>
              simp only [if_true] at h
              split at h
              · injection h with h2
                injection h2 with hc2 ht
                rw [← ht]
                rfl
              · cases hsp : setProp obj fn newObj with
                | error e => simp only [hsp] at h; exact Except.noConfusion h
                | ok obj2 =>
                  simp only [hsp] at h
                  injection h with h2
                  injection h2 with hc2 ht
                  rw [← ht]
                  exact setProp_getProp_ne obj fn newObj obj2 hsp s hs
        · rw [if_neg hc] at h
          injection h with h2
          injection h2 with hc2 ht
          rw [← ht]

/-- If no whitelist entry starts with segment `k`, the per-field filter of
`map_impl` leaves nothing for field `k`. -/
theorem filterHeadNil (wl : Whitelist) (k : String)
    (hk : ∀ e ∈ wl, e.head? ≠ some k) :
    wl.filter (fun e => decide (e.head? = some k)) = [] := by
  induction wl with
  | nil => rfl
  | cons e rest ih =>
    rw [List.filter_cons, if_neg (by simpa using hk e (List.mem_cons_self e rest))]
    exact ih (fun x hx => hk x (List.mem_cons_of_mem e hx))

/-- Through the whole field loop, a key with no whitelist entry headed by it
reads exactly as in the initial target. -/
theorem mapFieldsPreserve (fuel : Nat) :
    ∀ p obj props es wl opts parents chg k c t',
      (∀ e ∈ wl, e.head? ≠ some k) →
      mapFields p fuel obj props es wl opts parents chg = .ok (c, t') →
      getProp t' (.str k) = getProp obj (.str k) := by
  induction fuel with
  | zero =>
    intro p obj props es wl opts parents chg k c t' hk h
    rw [mapFields_zero] at h
    exact Except.noConfusion h
  | succ fuel ih =>
    intro p obj props es wl opts parents chg k c t' hk h
    cases props with
    | nil =>
      rw [mapFields_succ_nil] at h
      injection h with h2
      injection h2 with hc ht
      rw [← ht]
    | cons hd rest =>
      obtain ⟨fn, d⟩ := hd
      rw [mapFields_succ_cons] at h
      by_cases hfn : fn = k
      · subst hfn
        rw [filterHeadNil wl fn hk] at h
        cases hsf : setField p fuel obj (.str fn) d (some es) [] opts parents with
        | error e => simp only [hsf] at h; exact Except.noConfusion h
        | ok pr =>
          obtain ⟨r0, t2⟩ := pr
          have heq := (noChangeOnEmptyWhitelist fuel).2.2.1 p obj (.str fn) d (some es)
            opts parents (r0, t2) hsf
          injection heq with hr0 ht2
          rw [hr0, ht2] at hsf
          simp only [hsf, Bool.or_false] at h
          exact ih p obj rest es wl opts parents chg fn c t' hk h
      · cases hsf : setField p fuel obj (.str fn) d (some es)
            (wl.filter (fun e => decide (e.head? = some fn))) opts parents with
        | error e => simp only [hsf] at h; exact Except.noConfusion h
        | ok pr =>
          obtain ⟨r0, t2⟩ := pr
          simp only [hsf] at h
          have hstep := (writesOnlyOwnKey fuel).1 p obj (.str fn) d (some es)
            (wl.filter (fun e => decide (e.head? = some fn))) opts parents r0 t2 hsf k
            (fun hkk => hfn ((JsKey.toStr_str fn) ▸ hkk.symm))
          rw [ih p t2 rest es wl opts parents (chg || r0) k c t' hk h]
          exact hstep

/-- C4: a field whose path is absent from the effective whitelist is never
written. First conjunct: at any level of the recursion (`map_impl` is the
function invoked at every level, with the whitelist entries already filtered
by first segment and stripped by one segment per descent), a completed pass
leaves every key `k` with no whitelist entry headed `k` reading exactly as
before — no key of the target is assigned for that field, and no element is
appended inside it (the whole value under `k` is unchanged). Second
conjunct: the per-field dispatcher handed the empty effective whitelist (how
`map_impl` calls it for a field with no matching entries) completes as a
no-op on every target, keyed or sequence — so no element is appended for an
unlisted field even on array targets. -/
theorem unlisted_field_never_written (fuel : Nat) (p : DictParser) (obj : Value)
    (es : EntitySchema) (wl : Whitelist) (opts : Opts) (parents : List JsKey)
    (k : String) (d : FieldDef) (esd : Option EntitySchema) :
    (∀ c t', map_impl p fuel obj es wl opts parents = .ok (c, t') →
      (∀ e ∈ wl, e.head? ≠ some k) →
      getProp t' (.str k) = getProp obj (.str k)) ∧
    (∀ r, setField p fuel obj (.str k) d esd [] opts parents = .ok r →
      r = (false, obj)) := by
  constructor
  · intro c t' h hk
    cases fuel with
    | zero =>
      rw [map_impl_zero] at h
      exact Except.noConfusion h
    | succ fuel =>
      rw [map_impl_succ] at h
      exact mapFieldsPreserve fuel p obj es.properties es wl opts parents false k c t' hk h
  · intro r h
    exact (noChangeOnEmptyWhitelist fuel).2.2.1 p obj (.str k) d esd opts parents r h

/-- Witness for C4 at a concrete input: with whitelist `[["name"]]` the key
`"age"` is untouched by a completed pass, and `setField` on `"age"` with an
empty effective whitelist is a no-op. -/
theorem unlisted_field_never_written_witness :
    getProp (Value.obj [("name", .str "jeswin")]) (.str "age") =
      getProp (Value.obj []) (.str "age") ∧
    ((false, Value.obj []) : Bool × Value) = (false, Value.obj []) :=
  ⟨(unlisted_field_never_written 6 nameAgeParser (Value.obj []) nameAgeSchema
      [["name"]] ⟨true⟩ [] "age" intDef none).1 true (Value.obj [("name", .str "jeswin")])
      rfl (by decide),
   (unlisted_field_never_written 6 nameAgeParser (Value.obj []) nameAgeSchema
      [["name"]] ⟨true⟩ [] "age" intDef none).2 (false, Value.obj []) rfl⟩

/-- A schema with one indexed-mode array field `ids` of scalar (integer)
items. -/
def idsSchema : EntitySchema := .mk [("ids", .mk "array" (some intDef) none)] false [] []

/-- A flat source holding indexed scalar entries `ids_1`, `ids_2`. -/
def idsParser : DictParser :=
  ⟨fun s => if s = "ids_1" then some "13" else if s = "ids_2" then some "44" else none, "_"⟩

/-- C5: indexed-mode enumeration is strictly ascending and stops at the first
index that produces no change. First conjunct: the spec's gap scenario —
customer names at indices 1, 2 and 4 but not 3 produce exactly the elements
for 1 and 2, and the result does not depend on the value stored at index 4
(`v4` is universally quantified and never consulted), so index 4 is never
reached. Second conjunct: an index that produces no change terminates the
loop at once, returning the flag accumulated so far and the target as it
stands. Third conjunct: an index that produces a change assigns the
accumulated array and advances the counter by exactly one. -/
theorem indexed_enumeration_stops_at_gap :
    (∀ v4 : Option String,
      map_impl (gapParser v4) 100 (Value.obj []) customersSchema
          (splitWhitelist "_" ["customers_name"]) ⟨true⟩ [] =
        .ok (true, .obj [("customers",
          .arr [.obj [("name", .str "a")], .obj [("name", .str "b")]])])) ∧
    (∀ p fuel obj fn d it wl opts parents counter newArr chg na2,
      d.items = some it →
      setField p fuel newArr (.num counter) it none wl opts parents = .ok (false, na2) →
      arrayLoop p (fuel + 1) obj fn d wl opts parents counter newArr chg = .ok (chg, obj)) ∧
    (∀ p fuel obj fn d it wl opts parents counter newArr chg na2 obj2,
      d.items = some it →
      setField p fuel newArr (.num counter) it none wl opts parents = .ok (true, na2) →
      setProp obj fn na2 = .ok obj2 →
      arrayLoop p (fuel + 1) obj fn d wl opts parents counter newArr chg =
        arrayLoop p fuel obj2 fn d wl opts parents (counter + 1) na2 true) := by
  refine ⟨fun v4 => rfl, ?_, ?_⟩
  · intro p fuel obj fn d it wl opts parents counter newArr chg na2 hit hsf
    rw [arrayLoop_succ]
    simp only [hit, hsf, Bool.false_eq_true, if_false]
  · intro p fuel obj fn d it wl opts parents counter newArr chg na2 obj2 hit hsf hsp
    rw [arrayLoop_succ]
    simp only [hit, hsf, if_true, hsp]

/-- Witness for C5: the gap scenario instantiated with an actual (unused)
value at index 4, one stopping step at the empty index 3, and one advancing
step at index 1. -/
theorem indexed_enumeration_stops_at_gap_witness :
    map_impl (gapParser (some "zzz")) 100 (Value.obj []) customersSchema
        (splitWhitelist "_" ["customers_name"]) ⟨true⟩ [] =
      .ok (true, .obj [("customers",
        .arr [.obj [("name", .str "a")], .obj [("name", .str "b")]])]) ∧
    arrayLoop (gapParser none) 11 (Value.obj []) (.str "customers")
        (.mk "array" (some customerDef) none) [["customers", "name"]] ⟨true⟩
        [.str "customers"] 3 (Value.arr []) true = .ok (true, Value.obj []) ∧
    arrayLoop (gapParser none) 11 (Value.obj []) (.str "customers")
        (.mk "array" (some customerDef) none) [["customers", "name"]] ⟨true⟩
        [.str "customers"] 1 (Value.arr []) false =
      arrayLoop (gapParser none) 10 (Value.obj [("customers",
          .arr [.obj [("name", .str "a")]])]) (.str "customers")
        (.mk "array" (some customerDef) none) [["customers", "name"]] ⟨true⟩
        [.str "customers"] 2 (Value.arr [.obj [("name", .str "a")]]) true :=
  ⟨indexed_enumeration_stops_at_gap.1 (some "zzz"),
   indexed_enumeration_stops_at_gap.2.1 (gapParser none) 10 (Value.obj [])
     (.str "customers") (.mk "array" (some customerDef) none) customerDef
     [["customers", "name"]] ⟨true⟩ [.str "customers"] 3 (Value.arr []) true
     (Value.arr []) rfl rfl,
   indexed_enumeration_stops_at_gap.2.2 (gapParser none) 10 (Value.obj [])
     (.str "customers") (.mk "array" (some customerDef) none) customerDef
     [["customers", "name"]] ⟨true⟩ [.str "customers"] 1 (Value.arr []) false
     (Value.arr [.obj [("name", .str "a")]]) (Value.obj [("customers",
       .arr [.obj [("name", .str "a")]])]) rfl rfl rfl⟩

/-- C6: an indexed-mode array whose item type is a primitive scalar produces
zero elements for every whitelist, value source, options, parents and target:
the scalar guard of `setField` compares a string whitelist segment with the
numeric counter under strict equality, which never succeeds, so index 1
already produces no change and the loop terminates with nothing written and
no change reported. -/
theorem indexed_scalar_array_produces_nothing
    (p : DictParser) (f : Nat) (obj : Value) (fn : JsKey) (d it : FieldDef)
    (es : Option EntitySchema) (wl : Whitelist) (opts : Opts) (parents : List JsKey)
    (hm : esMapping es fn.toStr = false)
    (hit : d.items = some it)
    (hscal : it.type = "string" ∨ it.type = "integer" ∨ it.type = "number" ∨
      it.type = "boolean") :
    setArray p (f + 3) obj fn d es wl opts parents = .ok (false, obj) := by
  have hprim : isPrimitiveType it.type = true := by
    rcases hscal with h | h | h | h <;> simp [isPrimitiveType, h]
  have hna : it.type ≠ "array" := by
    rcases hscal with h | h | h | h <;> simp [h]
  have hsf : ∀ nA, setField p (f + 1) nA (.num 1) it none wl opts (parents ++ [fn]) =
      .ok (false, nA) := by
    intro nA
    rw [setField_succ, if_pos hprim, if_pos hna, wlHeadMatches_num]
    simp
  show setArray p (f + 1 + 1 + 1) obj fn d es wl opts parents = .ok (false, obj)
  rw [setArray_succ, if_neg (by simp [hm])]
  simp only [arrayLoop_succ, hit, hsf, Bool.false_eq_true, if_false]

/-- Witness for C6: the `ids` array with integer items, indexed entries
present in the source and even whitelisted, still produces nothing. -/
theorem indexed_scalar_array_produces_nothing_witness :
    setArray idsParser 10 (Value.obj []) (.str "ids") (.mk "array" (some intDef) none)
        (some idsSchema) [["ids"], ["ids", "1"]] ⟨true⟩ [] = .ok (false, Value.obj []) :=
  indexed_scalar_array_produces_nothing idsParser 7 (Value.obj []) (.str "ids")
    (.mk "array" (some intDef) none) intDef (some idsSchema) [["ids"], ["ids", "1"]]
    ⟨true⟩ [] rfl rfl (Or.inr (Or.inl rfl))

/-- The CSV-mode nested-array schema: `m` has item type `"array"` and is
named in `mapping`. -/
def csvNestedSchema : EntitySchema :=
  .mk [("m", .mk "array" (some (.mk "array" (some intDef) none)) none)] false ["m"] []

/-- C9 amended: only in CSV mode — the field name appears in the enclosing
entity schema's `mapping` set — does an array item type of `"array"` fail
fatally with `"Cannot map array of arrays"`, for every whitelist, value
source, options and target. In indexed mode no error is raised and an array
of arrays can even be constructed (see the counterexample
for the original claim). -/
theorem csv_nested_array_throws
    (p : DictParser) (f : Nat) (obj : Value) (fn : JsKey) (d it : FieldDef)
    (es : Option EntitySchema) (wl : Whitelist) (opts : Opts) (parents : List JsKey)
    (hm : esMapping es fn.toStr = true)
    (hit : d.items = some it)
    (ha : it.type = "array") :
    setArray p (f + 1) obj fn d es wl opts parents =
      .error (.jsError "Cannot map array of arrays") := by
  rw [setArray_succ, if_pos hm]
  simp only [hit]
  rw [if_neg (by simp [ha])]

/-- Witness for C9's amended claim: the CSV-marked nested array `m` throws. -/
theorem csv_nested_array_throws_witness :
    setArray nameAgeParser 10 (Value.obj []) (.str "m")
        (.mk "array" (some (.mk "array" (some intDef) none)) none)
        (some csvNestedSchema) [["m"]] ⟨true⟩ [] =
      .error (.jsError "Cannot map array of arrays") :=
  csv_nested_array_throws nameAgeParser 9 (Value.obj []) (.str "m")
    (.mk "array" (some (.mk "array" (some intDef) none)) none)
    (.mk "array" (some intDef) none) (some csvNestedSchema) [["m"]] ⟨true⟩ []
    rfl rfl rfl

/-- C8 amended: with `overwrite = false`, a scalar field of the keyed target
itself that already holds a *truthy* value is never replaced:
`obj[fieldName] = obj[fieldName] || result` re-assigns the stored value, so
the target is unchanged and the freshly fetched value is discarded. (A falsy
stored value — `0`, `""`, `false`, `NaN` — is overwritten as if the field
were unset, and nested objects are rebuilt wholesale regardless of
`overwrite`; see the counterexample for the original claim.) -/
theorem overwrite_false_preserves_truthy
    (p : DictParser) (fs : List (String × Value)) (fn : String) (d : FieldDef)
    (es : Option EntitySchema) (wl : Whitelist) (opts : Opts) (parents : List JsKey)
    (v : Value) (c : Bool) (t' : Value)
    (hov : opts.overwrite = false)
    (hv : objGet fs fn = some v)
    (htr : truthy v = true)
    (h : setSimpleType p (.obj fs) (.str fn) d es wl opts parents = .ok (c, t')) :
    t' = .obj fs := by
  unfold setSimpleType at h
  cases hgf : getField p (String.intercalate p.delimiter
      ((parents ++ [JsKey.str fn]).map JsKey.toStr)) none with
  | error e => simp only [hgf] at h; exact Except.noConfusion h
  | ok val =>
    simp only [hgf] at h
    by_cases hvv : truthy val
    · rw [if_pos hvv] at h
      cases hps : parseSimpleType val (JsKey.toStr (.str fn)) d es with
      | error e => simp only [hps] at h; exact Except.noConfusion h
      | ok result =>
        simp only [hps, hov, Bool.false_eq_true, if_false] at h
        have hgp : getProp (Value.obj fs) (.str fn) = v := by
          simp [getProp, JsKey.toStr_str, hv]
        rw [hgp, if_pos htr] at h
        simp only [setProp] at h
        injection h with h2
        injection h2 with hc ht
        rw [← ht, JsKey.toStr_str, objSet_objGet_self fs fn v hv]
    · rw [if_neg hvv] at h
      injection h with h2
      injection h2 with hc ht
      exact ht.symm

/-- Witness for C8's amended claim: `age` holding the truthy `7` is kept. -/
theorem overwrite_false_preserves_truthy_witness :
    (Value.obj [("age", Value.int 7)]) = Value.obj [("age", Value.int 7)] :=
  overwrite_false_preserves_truthy ageParser [("age", Value.int 7)] "age" intDef
    none [] ⟨false⟩ [] (Value.int 7) true (Value.obj [("age", Value.int 7)])
    rfl rfl rfl rfl

/-- Every escaped character is a non-empty string. -/
theorem escapeChar_ne_empty (c : Char) : escapeChar c ≠ "" := by
  unfold escapeChar
  split_ifs <;> intro h <;> have hd := congrArg String.data h <;> simp at hd

/-- Escaping preserves non-emptiness. -/
theorem escapeHtml_ne_empty (s : String) (h : s ≠ "") : escapeHtml s ≠ "" := by
  obtain ⟨l⟩ := s
  cases l with
  | nil => exact absurd rfl h
  | cons c rest =>
    show escapeChar c ++ escapeChars rest ≠ ""
    intro hh
    have hd := congrArg String.data hh
    rw [String.data_append] at hd
    have hc := List.append_eq_nil.mp hd
    exact escapeChar_ne_empty c (by
      have := hc.1
      cases hcc : escapeChar c
      simp_all)

/-- C10: the raw value of a scalar field is converted twice before being
stored. `setSimpleType` fetches through `getField`, which is called without
the field definition and therefore converts under the defaulted type
`"string"` — a full escaping — and then `parseSimpleType` converts that
result again under the field's declared type. For a string field not listed
in `htmlFields` the stored value is `escapeHtml (escapeHtml raw)` (first
conjunct); this differs from a single escaping as soon as the raw value
contains an escapable character (second conjunct, at `"&"`). -/
theorem scalar_double_conversion
    (p : DictParser) (fs : List (String × Value)) (fn : String) (d : FieldDef)
    (es : EntitySchema) (wl : Whitelist) (opts : Opts) (parents : List JsKey)
    (raw : String)
    (hd : p.dict (String.intercalate p.delimiter
      ((parents ++ [JsKey.str fn]).map JsKey.toStr)) = some raw)
    (hraw : raw ≠ "")
    (hdt : d.type = "string")
    (hhtml : es.htmlFields.contains fn = false)
    (hov : opts.overwrite = true) :
    setSimpleType p (.obj fs) (.str fn) d (some es) wl opts parents =
      .ok (true, .obj (objSet fs fn (.str (escapeHtml (escapeHtml raw))))) ∧
    escapeHtml (escapeHtml "&") ≠ escapeHtml "&" := by
  constructor
  · have hgf : getField p (String.intercalate p.delimiter
        ((parents ++ [JsKey.str fn]).map JsKey.toStr)) none =
        .ok (.str (escapeHtml raw)) := by
      unfold getField
      simp only [hd]
      rw [if_neg hraw]
      unfold parseSimpleType
      rw [if_pos (by simp [truthy, hraw])]
      rfl
    have hps : parseSimpleType (.str (escapeHtml raw)) (JsKey.toStr (.str fn)) d (some es) =
        .ok (.str (escapeHtml (escapeHtml raw))) := by
      unfold parseSimpleType
      rw [if_pos (by simp [truthy, escapeHtml_ne_empty raw hraw]), hdt]
      simp only [esHtmlFields, JsKey.toStr_str, hhtml, Bool.false_eq_true, if_false]
      rfl
    unfold setSimpleType
    simp only [hgf]
    rw [if_pos (by simp [truthy, escapeHtml_ne_empty raw hraw])]
    simp only [hps]
    rw [if_pos hov]
    simp only [setProp]
    rfl
  · decide

/-- Witness for C10: the raw value `"a&b"` of the non-HTML string field
`name` is stored doubly escaped, as `"a&amp;amp;b"`. -/
theorem scalar_double_conversion_witness :
    setSimpleType nameAgeParser (.obj []) (.str "name") strDef (some nameAgeSchema)
        [["name"]] ⟨true⟩ [] =
      .ok (true, .obj (objSet [] "name" (.str (escapeHtml (escapeHtml "jeswin"))))) ∧
    escapeHtml (escapeHtml "&") ≠ escapeHtml "&" :=
  scalar_double_conversion nameAgeParser [] "name" strDef nameAgeSchema [["name"]]
    ⟨true⟩ [] "jeswin" rfl (by decide) rfl rfl rfl

/-! ## Idempotence for scalar-only schemas -/

/-- The primitive non-array ("scalar") types of `parseSimpleType`'s
dispatch. -/
def isScalarType (t : String) : Bool :=
  t == "string" || t == "integer" || t == "number" || t == "boolean"

/-- The value a scalar field write would store, and whether it happens at
all: `none` when the whitelist guard fails or the fetched value is falsy.
The decision and the value depend only on the parser state, the schema and
the paths — never on the target, which is what makes repeated passes write
the same thing. -/
def scalarWriteValue (p : DictParser) (es : EntitySchema) (parents : List JsKey)
    (fwl : Whitelist) (fn : String) (d : FieldDef) : Option Value :=
  if wlHeadMatches fwl (.str fn) then
    match getField p (String.intercalate p.delimiter
        ((parents ++ [JsKey.str fn]).map JsKey.toStr)) none with
    | .error _ => none
    | .ok val =>
      if truthy val then
        match parseSimpleType val fn d (some es) with
        | .error _ => none
        | .ok result => some result
      else none
  else none

/-- `getField` with the defaulted definition never throws: it returns
`undefined` for an absent or empty raw value and the escaped string
otherwise. -/
theorem getField_none_eq (p : DictParser) (name : String) :
    getField p name none = .ok (match p.dict name with
      | none => Value.undefined
      | some v => if v = "" then Value.undefined else .str (escapeHtml v)) := by
  unfold getField
  cases hdv : p.dict name with
  | none => simp only [hdv]
  | some v =>
    simp only [hdv]
    by_cases hv : v = ""
    · rw [if_pos hv, if_pos hv]
    · rw [if_neg hv, if_neg hv]
      unfold parseSimpleType
      rw [if_pos (by simp [truthy, hv])]
      rfl

/-- On the four scalar types, `parseSimpleType` never throws. -/
theorem parseSimpleType_scalar_ok (val : Value) (fn : String) (d : FieldDef)
    (es : Option EntitySchema) (hscal : isScalarType d.type = true) :
    ∃ r, parseSimpleType val fn d es = .ok r := by
  have h4 : d.type = "string" ∨ d.type = "integer" ∨ d.type = "number" ∨
      d.type = "boolean" := by
    have hx := hscal
    simp only [isScalarType, Bool.or_eq_true, beq_iff_eq] at hx
    tauto
  unfold parseSimpleType
  by_cases hv : truthy val
  · rw [if_pos hv]
    rcases h4 with h | h | h | h <;> rw [h]
    · by_cases hh : esHtmlFields es fn
      · rw [if_pos hh]; exact ⟨_, rfl⟩
      · rw [if_neg hh]; exact ⟨_, rfl⟩
    · exact ⟨_, rfl⟩
    · exact ⟨_, rfl⟩
    · exact ⟨_, rfl⟩
  · rw [if_neg hv]
    exact ⟨_, rfl⟩

/-- `setField` on a keyed target and a scalar field is exactly the write (or
skip) that `scalarWriteValue` describes — in particular its effect does not
depend on the target. -/
theorem setFieldScalarChar (p : DictParser) (g : Nat) (fs : List (String × Value))
    (fn : String) (d : FieldDef) (es : EntitySchema) (fwl : Whitelist) (opts : Opts)
    (parents : List JsKey)
    (hscal : isScalarType d.type = true) (hov : opts.overwrite = true) :
    setField p (g + 1) (.obj fs) (.str fn) d (some es) fwl opts parents =
      (match scalarWriteValue p es parents fwl fn d with
       | none => .ok (false, .obj fs)
       | some v => .ok (true, .obj (objSet fs fn v))) := by
  have h4 : d.type = "string" ∨ d.type = "integer" ∨ d.type = "number" ∨
      d.type = "boolean" := by
    have hx := hscal
    simp only [isScalarType, Bool.or_eq_true, beq_iff_eq] at hx
    tauto
  have hprim : isPrimitiveType d.type = true := by
    rcases h4 with h | h | h | h <;> simp [isPrimitiveType, h]
  have hna : d.type ≠ "array" := by
    rcases h4 with h | h | h | h <;> simp [h]
  rw [setField_succ, if_pos hprim, if_pos hna]
  by_cases hw : wlHeadMatches fwl (.str fn)
  · rw [if_pos hw]
    unfold setSimpleType scalarWriteValue
    rw [if_pos hw]
    cases hgf : getField p (String.intercalate p.delimiter
        ((parents ++ [JsKey.str fn]).map JsKey.toStr)) none with
    | error e =>
      rw [getField_none_eq] at hgf
      exact Except.noConfusion hgf
    | ok val =>
      simp only [hgf]
      by_cases hv : truthy val
      · rw [if_pos hv, if_pos hv]
        obtain ⟨r, hr⟩ := parseSimpleType_scalar_ok val fn d (some es) hscal
        simp only [JsKey.toStr_str, hr]
        rw [if_pos hov]
        simp only [setProp, JsKey.toStr_str]
      · rw [if_neg hv, if_neg hv]
  · rw [if_neg hw]
    unfold scalarWriteValue
    rw [if_neg hw]

/-- The pure fold describing a full pass of `mapFields` over a scalar-only
schema on a keyed target: apply each field's `scalarWriteValue` in order. -/
def runScalars (p : DictParser) (es : EntitySchema) (wl : Whitelist)
    (parents : List JsKey) :
    List (String × FieldDef) → Bool → List (String × Value) →
    Bool × List (String × Value)
  | [], chg, fs => (chg, fs)
  | (fn, d) :: rest, chg, fs =>
    match scalarWriteValue p es parents
        (wl.filter (fun e => decide (e.head? = some fn))) fn d with
    | none => runScalars p es wl parents rest chg fs
    | some v => runScalars p es wl parents rest true (objSet fs fn v)

/-- A completed `mapFields` pass over a scalar-only schema on a keyed target
computes exactly `runScalars`. -/
theorem mapFieldsScalarChar (p : DictParser) (es : EntitySchema) (wl : Whitelist)
    (opts : Opts) (parents : List JsKey) (hov : opts.overwrite = true) :
    ∀ props fuel chg fs c t',
      (∀ pr ∈ props, isScalarType (FieldDef.type pr.2) = true) →
      mapFields p fuel (.obj fs) props es wl opts parents chg = .ok (c, t') →
      c = (runScalars p es wl parents props chg fs).1 ∧
        t' = .obj (runScalars p es wl parents props chg fs).2 := by
  intro props
  induction props with
  | nil =>
    intro fuel chg fs c t' hscal h
    cases fuel with
    | zero => rw [mapFields_zero] at h; exact Except.noConfusion h
    | succ g =>
      rw [mapFields_succ_nil] at h
      injection h with h2
      injection h2 with hc ht
      exact ⟨hc.symm, ht.symm⟩
  | cons hd rest ih =>
    obtain ⟨fn, d⟩ := hd
    intro fuel chg fs c t' hscal h
    cases fuel with
    | zero => rw [mapFields_zero] at h; exact Except.noConfusion h
    | succ g =>
      rw [mapFields_succ_cons] at h
      cases g with
      | zero => rw [setField_zero] at h; exact Except.noConfusion h
      | succ g2 =>
        rw [setFieldScalarChar p g2 fs fn d es _ opts parents
          (hscal (fn, d) (List.mem_cons_self _ _)) hov] at h
        cases hw : scalarWriteValue p es parents
            (wl.filter (fun e => decide (e.head? = some fn))) fn d with
        | none =>
          simp only [hw, Bool.or_false] at h
          have := ih (g2 + 1) chg fs c t'
            (fun pr hpr => hscal pr (List.mem_cons_of_mem _ hpr)) h
          simpa [runScalars, hw] using this
        | some v =>
          simp only [hw, Bool.or_true] at h
          have := ih (g2 + 1) true (objSet fs fn v) c t'
            (fun pr hpr => hscal pr (List.mem_cons_of_mem _ hpr)) h
          simpa [runScalars, hw] using this

/-- `runScalars` only writes keys named in its property list. -/
theorem runScalars_objGet_not_mem (p : DictParser) (es : EntitySchema)
    (wl : Whitelist) (parents : List JsKey) :
    ∀ props chg fs k, k ∉ props.map Prod.fst →
      objGet (runScalars p es wl parents props chg fs).2 k = objGet fs k := by
  intro props
  induction props with
  | nil => intro chg fs k hk; rfl
  | cons hd rest ih =>
    obtain ⟨fn, d⟩ := hd
    intro chg fs k hk
    have hkfn : k ≠ fn := fun hh => hk (by simp [hh])
    have hkrest : k ∉ rest.map Prod.fst := fun hh => hk (by simp [hh])
    cases hw : scalarWriteValue p es parents
        (wl.filter (fun e => decide (e.head? = some fn))) fn d with
    | none =>
      simp only [runScalars, hw]
      exact ih chg fs k hkrest
    | some v =>
      simp only [runScalars, hw]
      rw [ih true (objSet fs fn v) k hkrest]
      exact objGet_objSet_ne fs fn k v hkfn

/-- Applying the same scalar pass twice produces the same object as applying
it once (the second pass rewrites each field with the same value), provided
the schema's field names are distinct — which JS object properties always
are. -/
theorem runScalars_fixpoint (p : DictParser) (es : EntitySchema) (wl : Whitelist)
    (parents : List JsKey) :
    ∀ props fs chg chg2, (props.map Prod.fst).Nodup →
      (runScalars p es wl parents props chg2
        (runScalars p es wl parents props chg fs).2).2 =
      (runScalars p es wl parents props chg fs).2 := by
  intro props
  induction props with
  | nil => intro fs chg chg2 hnd; rfl
  | cons hd rest ih =>
    obtain ⟨fn, d⟩ := hd
    intro fs chg chg2 hnd
    rw [List.map_cons, List.nodup_cons] at hnd
    obtain ⟨hfn, hrest⟩ := hnd
    cases hw : scalarWriteValue p es parents
        (wl.filter (fun e => decide (e.head? = some fn))) fn d with
    | none =>
      simp only [runScalars, hw]
      exact ih fs chg chg2 hrest
    | some v =>
      simp only [runScalars, hw]
      have hget : objGet (runScalars p es wl parents rest true (objSet fs fn v)).2 fn =
          some v := by
        rw [runScalars_objGet_not_mem p es wl parents rest true (objSet fs fn v) fn hfn]
        exact objGet_objSet_self fs fn v
      rw [objSet_objGet_self _ fn v hget]
      exact ih (objSet fs fn v) true true hrest

/-- C7 amended: with `overwrite = true` and a deterministic value source,
`map` is idempotent on keyed targets for schemas whose fields are all
primitive scalars (with the distinct property names JS objects guarantee): a
second pass re-fetches and overwrites every field with the same value,
leaving the target exactly as the first pass left it. (For indexed-mode
arrays of objects idempotence fails — each pass appends the elements again;
see the counterexample for the original claim.) -/
theorem map_idempotent_scalar_schema (p : DictParser) (es : EntitySchema)
    (wl : Whitelist) (opts : Opts) (parents : List JsKey)
    (fs : List (String × Value)) (fuel1 fuel2 : Nat) (c1 c2 : Bool) (t1 t2 : Value)
    (hscal : ∀ pr ∈ es.properties, isScalarType (FieldDef.type pr.2) = true)
    (hnd : (es.properties.map Prod.fst).Nodup)
    (hov : opts.overwrite = true)
    (h1 : map_impl p fuel1 (.obj fs) es wl opts parents = .ok (c1, t1))
    (h2 : map_impl p fuel2 t1 es wl opts parents = .ok (c2, t2)) :
    t2 = t1 := by
  cases fuel1 with
  | zero => rw [map_impl_zero] at h1; exact Except.noConfusion h1
  | succ f1 =>
    rw [map_impl_succ] at h1
    obtain ⟨hc1, ht1⟩ := mapFieldsScalarChar p es wl opts parents hov
      es.properties f1 false fs c1 t1 hscal h1
    cases fuel2 with
    | zero => rw [map_impl_zero] at h2; exact Except.noConfusion h2
    | succ f2 =>
      rw [map_impl_succ, ht1] at h2
      obtain ⟨hc2, ht2⟩ := mapFieldsScalarChar p es wl opts parents hov
        es.properties f2 false (runScalars p es wl parents es.properties false fs).2
        c2 t2 hscal h2
      rw [ht2, ht1]
      rw [runScalars_fixpoint p es wl parents es.properties fs false false hnd]

/-- Witness for C7's amended claim: re-running the `name`/`age` pass on its
own output leaves the target unchanged. -/
theorem map_idempotent_scalar_schema_witness :
    (Value.obj [("name", .str "jeswin"), ("age", .int 33)]) =
      Value.obj [("name", .str "jeswin"), ("age", .int 33)] :=
  map_idempotent_scalar_schema nameAgeParser nameAgeSchema [["name"], ["age"]]
    ⟨true⟩ [] [] 10 10 true true
    (Value.obj [("name", .str "jeswin"), ("age", .int 33)])
    (Value.obj [("name", .str "jeswin"), ("age", .int 33)])
    (by decide) (by decide) rfl rfl rfl
